import Mathlib

/-!
Verification of the WipeForge evidence-chain specification against the code.

The repository's chain and wipe-engine modules (`blockchain_simulation.py`,
`wipe_engine.py`) are referenced from `webcode/views.py` but their sources are
not part of the checkout, so the chain operations (`genesis`, `latest`,
`append`, `verify`) and the wipe executor's outcome are modelled from the
spec's contracts; the caller `start_wipe` is embedded directly from
`webcode/views.py`.  Hash digests are modelled ideally: a digest is a value of
an inductive type whose constructor records exactly the serialized fields
`(index, timestamp, payload, previous_hash)`, so digest equality coincides
with field equality (the collision-freeness the spec assumes of a
cryptographically strong hash).
-/

/-- A payload is an ordered string-keyed map of string values, as in
`views.py` where `wipe_log_data` is a dict of string entries. -/
abbrev Payload := List (String × String)

/-- Modelled from the spec: the value space of hash digests.  `marker` is the
fixed `previous_hash = "0"` sentinel of the genesis block; `digest` is the
cryptographic digest of a canonical serialization of
`(index, timestamp, payload, previous_hash)`.  Constructor injectivity models
the spec's assumption that the digest identifies a block's content. -/
inductive HashV where
  | marker : HashV
  | digest (index : Nat) (timestamp : String) (payload : Payload)
      (previous : HashV) : HashV
deriving DecidableEq, Repr

/-- Nesting depth of a digest value; used to show a digest can never equal
its own `previous` component (no hash fixed points in the ideal model). -/
def HashV.depth : HashV → Nat
  | .marker => 0
  | .digest _ _ _ h => h.depth + 1

/-- A block of the evidence chain: ordinal position, creation time, opaque
payload, predecessor digest, and the block's own stored digest. -/
structure Block where
  index : Nat
  timestamp : String
  payload : Payload
  previous_hash : HashV
  hash : HashV
deriving DecidableEq, Repr

/-- Modelled from the spec: the digest deterministically derived from the four
content fields of a block (`hash` itself excluded). -/
def calculate_hash (b : Block) : HashV :=
  HashV.digest b.index b.timestamp b.payload b.previous_hash

/-- Modelled from the spec: block construction sets `hash` by applying the
hashing function to the other four fields; no other party sets `hash`. -/
def mkBlock (index : Nat) (timestamp : String) (payload : Payload)
    (previous_hash : HashV) : Block :=
  { index := index, timestamp := timestamp, payload := payload,
    previous_hash := previous_hash,
    hash := HashV.digest index timestamp payload previous_hash }

/-- Modelled from the spec: the genesis block has index 0, a fixed sentinel
payload, the fixed `"0"` marker as `previous_hash`, and fixed canonical
content (a constant timestamp), so genesis is deterministic. -/
def genesisBlock : Block :=
  mkBlock 0 "0" [("data", "Genesis Block")] HashV.marker

/-- A chain is an ordered sequence of blocks. -/
abbrev Chain := List Block

/-- Modelled from the spec: `genesis()` constructs a chain holding exactly
the genesis block.  The `Unit` argument mirrors that each service start is a
fresh invocation. -/
def genesis (_ : Unit) : Chain := [genesisBlock]

/-- Modelled from the spec: `latest(chain)` returns the last block; `none`
models the `EmptyChainError` raised on a zero-length chain. -/
def latest (c : Chain) : Option Block := c.getLast?

/-- Modelled from the spec: `append(chain, payload)` builds a block with
`index = len(chain)`, the supplied timestamp (`now()` is passed in by the
caller), the given payload and `previous_hash = latest(chain).hash`, computes
its hash, pushes it, and returns the grown chain with the new block.  `none`
models the `EmptyChainError` surfacing from `latest`. -/
def appendBlock (c : Chain) (ts : String) (p : Payload) :
    Option (Chain × Block) :=
  match latest c with
  | none => none
  | some tip =>
    let b := mkBlock c.length ts p tip.hash
    some (c ++ [b], b)

/-- Modelled from the spec: the per-block check of `verify` — the stored hash
must equal the digest recomputed from the block's own fields, and
`previous_hash` must equal the stored hash of the preceding block. -/
def checkBlock (prev cur : Block) : Bool :=
  cur.hash == calculate_hash cur && cur.previous_hash == prev.hash

/-- Walk the chain pairwise starting at position `i`, returning the first
position whose check fails. -/
def firstViolationFrom : Block → List Block → Nat → Option Nat
  | _, [], _ => none
  | prev, cur :: rest, i =>
    if checkBlock prev cur then firstViolationFrom cur rest (i + 1)
    else some i

/-- Modelled from the spec: `verify` walks the chain from index 1 to the end
and reports the first failing index, `none` when every check passes. -/
def firstViolation (c : Chain) : Option Nat :=
  match c with
  | [] => none
  | g :: rest => firstViolationFrom g rest 1

/-- Modelled from the spec: `verify(chain)` returns true iff all per-block
checks pass for every block from index 1 to the end. -/
def verify (c : Chain) : Bool :=
  (firstViolation c).isNone

/-- The chains reachable from the genesis chain by finitely many appends. -/
inductive Reachable : Chain → Prop where
  | genesis : Reachable (genesis ())
  | append (c : Chain) (ts : String) (p : Payload) (c2 : Chain) (b : Block) :
      Reachable c → appendBlock c ts p = some (c2, b) → Reachable c2

/-- `device_id.replace('-', '')` from `views.py` line 24: every dash removed. -/
def removeDashes (s : String) : String :=
  String.mk (s.data.filter (fun ch => ch ≠ '-'))

/-- Errors the wipe executor can signal, from the spec's taxonomy. -/
inductive WipeError where
  | DeviceUnavailable : WipeError
  | SanitizationFailed : WipeError
  | ArtifactWriteError : WipeError
deriving DecidableEq, Repr

/-- Evidence artifacts the wipe engine reports on completion
(`engine.log_file`, `engine.certificate_file` in `views.py`). -/
structure Artifacts where
  log_file : String
  certificate_file : String
deriving DecidableEq, Repr

/-- Errors that can abort `start_wipe`: a propagated executor error, or the
chain's `EmptyChainError` from `get_latest_block` on a corrupted chain. -/
inductive StartWipeError where
  | engine (e : WipeError) : StartWipeError
  | emptyChain : StartWipeError
deriving DecidableEq, Repr

/-- The template context built at `views.py` lines 33-43 and rendered into
the certificate page. -/
structure Context where
  device_id : String
  device_name : String
  timestamp : String
  wipe_status : String
  method : String
  blockchain_hash : HashV
  previous_hash : HashV
  log_file : String
  certificate_file : String
deriving DecidableEq, Repr

/-- `start_wipe` from `webcode/views.py` lines 12-44, embedded with explicit
state passing: the global `wipe_chain` is the `chain` argument and the
returned first component; `request.GET.get('device', 'DEVICE123')` is the
`device` argument with its default; `datetime.now()` is the `ts` argument;
the wipe engine's run (its class is not in the checkout) is the `outcome`
argument — a Python exception from `perform_wipe_simulation` at line 20
propagates before the append at line 31 runs, which the `error` branch
models.  On success the payload dict of lines 23-29 is built, the new block
is constructed from `len(chain)`, the timestamp, the payload and
`get_latest_block().hash` (line 30), appended (line 31), and the certificate
context of lines 33-43 is returned. -/
def start_wipe (chain : Chain) (device : Option String) (ts : String)
    (outcome : Except WipeError Artifacts) :
    Chain × Except StartWipeError Context :=
  let device_id := device.getD "DEVICE123"
  let device_name := device_id ++ " Device"
  let wiping_method := "DoD 5220.22-M"
  match outcome with
  | .error e => (chain, .error (.engine e))
  | .ok a =>
    let wipe_log_data : Payload :=
      [("log_id", "log_" ++ removeDashes device_id),
       ("device_id", device_id),
       ("wiping_method", wiping_method),
       ("status", "Wipe Successful"),
       ("timestamp", ts)]
    match latest chain with
    | none => (chain, .error .emptyChain)
    | some tip =>
      let new_block := mkBlock chain.length ts wipe_log_data tip.hash
      (chain ++ [new_block],
       .ok { device_id := device_id, device_name := device_name,
             timestamp := ts, wipe_status := "Wipe Successful",
             method := wiping_method, blockchain_hash := new_block.hash,
             previous_hash := new_block.previous_hash,
             log_file := a.log_file,
             certificate_file := a.certificate_file })

/-! ### Helper lemmas about the chain walk -/

/-- Last element of `a :: l`, by structural recursion. -/
def lastD (a : Block) : List Block → Block
  | [] => a
  | b :: bs => lastD b bs

theorem getLast?_eq_lastD (a : Block) (l : List Block) :
    (a :: l).getLast? = some (lastD a l) := by
  induction l generalizing a with
  | nil => rfl
  | cons b bs ih => rw [List.getLast?_cons_cons]; exact ih b

theorem checkBlock_eq_true_iff (prev cur : Block) :
    checkBlock prev cur = true ↔
      cur.hash = calculate_hash cur ∧ cur.previous_hash = prev.hash := by
  simp [checkBlock]

theorem fvFrom_append_eq_none_iff (prev : Block) (l1 l2 : List Block)
    (i : Nat) :
    firstViolationFrom prev (l1 ++ l2) i = none ↔
      firstViolationFrom prev l1 i = none ∧
        firstViolationFrom (lastD prev l1) l2 (i + l1.length) = none := by
  induction l1 generalizing prev i with
  | nil => simp [firstViolationFrom, lastD]
  | cons b bs ih =>
    by_cases hc : checkBlock prev b
    · simp only [List.cons_append, firstViolationFrom, hc, if_true, lastD,
        List.append_eq]
      rw [ih b (i + 1)]
      have : i + 1 + bs.length = i + (b :: bs).length := by
        simp; omega
      rw [this]
    · simp [firstViolationFrom, hc]

theorem fvFrom_append_of_none (prev : Block) (l1 l2 : List Block) (i : Nat)
    (h : firstViolationFrom prev l1 i = none) :
    firstViolationFrom prev (l1 ++ l2) i =
      firstViolationFrom (lastD prev l1) l2 (i + l1.length) := by
  induction l1 generalizing prev i with
  | nil => simp [lastD]
  | cons b bs ih =>
    by_cases hc : checkBlock prev b
    · simp only [firstViolationFrom, hc, if_true] at h
      simp only [List.cons_append, firstViolationFrom, hc, if_true, lastD,
        List.append_eq]
      rw [ih b (i + 1) h]
      have : i + 1 + bs.length = i + (b :: bs).length := by
        simp; omega
      rw [this]
    · simp [firstViolationFrom, hc] at h

theorem fvFrom_eq_none_iff_checks (prev : Block) (l : List Block) (i : Nat) :
    firstViolationFrom prev l i = none ↔
      ∀ (k : Nat) (cur prevb : Block), l[k]? = some cur →
        (prev :: l)[k]? = some prevb → checkBlock prevb cur = true := by
  induction l generalizing prev i with
  | nil => simp [firstViolationFrom]
  | cons b bs ih =>
    by_cases hc : checkBlock prev b
    · simp only [firstViolationFrom, hc, if_true]
      rw [ih b (i + 1)]
      constructor
      · intro h k cur prevb hcur hprev
        cases k with
        | zero =>
          simp only [List.getElem?_cons_zero, Option.some.injEq] at hcur hprev
          rw [← hcur, ← hprev]; exact hc
        | succ j =>
          exact h j cur prevb (by simpa using hcur) (by simpa using hprev)
      · intro h k cur prevb hcur hprev
        exact h (k + 1) cur prevb (by simpa using hcur) (by simpa using hprev)
    · simp only [firstViolationFrom, hc, if_false]
      constructor
      · intro h; exact absurd h (by simp)
      · intro h; exact absurd (h 0 b prev (by simp) (by simp)) (by simp [hc])

theorem verify_iff_opt (ch : Chain) :
    verify ch = true ↔
      ∀ (i : Nat) (cur prevb : Block), ch[i + 1]? = some cur →
        ch[i]? = some prevb → checkBlock prevb cur = true := by
  cases ch with
  | nil =>
    simp only [verify, firstViolation, Option.isNone_none, true_iff]
    intro i cur prevb hcur
    simp at hcur
  | cons g rest =>
    simp only [verify, firstViolation, Option.isNone_iff_eq_none]
    rw [fvFrom_eq_none_iff_checks g rest 1]
    constructor
    · intro h i cur prevb hcur hprev
      exact h i cur prevb (by simpa using hcur) hprev
    · intro h k cur prevb hcur hprev
      exact h k cur prevb (by simpa using hcur) hprev

/-! ### The ideal hash has no fixed points -/

theorem digest_ne_self (i : Nat) (ts : String) (p : Payload) (h : HashV) :
    HashV.digest i ts p h ≠ h := by
  intro he
  have hd := congrArg HashV.depth he
  simp only [HashV.depth] at hd
  omega

theorem digest_ne_self2 (i1 : Nat) (t1 : String) (p1 : Payload) (i2 : Nat)
    (t2 : String) (p2 : Payload) (h : HashV) :
    HashV.digest i1 t1 p1 (HashV.digest i2 t2 p2 h) ≠ h := by
  intro he
  have hd := congrArg HashV.depth he
  simp only [HashV.depth] at hd
  omega

/-! ### Decomposing a successful append -/

theorem appendBlock_eq_some (c : Chain) (ts : String) (p : Payload)
    (c2 : Chain) (b : Block) (h : appendBlock c ts p = some (c2, b)) :
    ∃ tip, latest c = some tip ∧ b = mkBlock c.length ts p tip.hash ∧
      c2 = c ++ [b] := by
  cases hl : latest c with
  | none => simp [appendBlock, hl] at h
  | some tip =>
    simp only [appendBlock, hl, Option.some.injEq, Prod.mk.injEq] at h
    exact ⟨tip, rfl, h.2.symm, by rw [← h.1, h.2]⟩

theorem verify_append_mk (c : Chain) (ts : String) (p : Payload)
    (tip : Block) (hl : latest c = some tip) (hv : verify c = true) :
    verify (c ++ [mkBlock c.length ts p tip.hash]) = true := by
  cases c with
  | nil => simp [latest] at hl
  | cons g rest =>
    simp only [verify, firstViolation, Option.isNone_iff_eq_none] at hv ⊢
    simp only [List.cons_append]
    rw [fvFrom_append_eq_none_iff]
    refine ⟨hv, ?_⟩
    have htip : tip = lastD g rest := by
      have := getLast?_eq_lastD g rest
      simp only [latest, this, Option.some.injEq] at hl
      exact hl.symm
    rw [← htip]
    simp [firstViolationFrom, checkBlock, mkBlock, calculate_hash]

/-! ### Invariants of reachable chains -/

theorem reachable_length_pos (c : Chain) (h : Reachable c) : 0 < c.length := by
  induction h with
  | genesis => simp [genesis]
  | append c ts p c2 b hr happ ih =>
    obtain ⟨tip, hl, hb, hc2⟩ := appendBlock_eq_some c ts p c2 b happ
    subst hc2
    simp

theorem reachable_verify (c : Chain) (h : Reachable c) : verify c = true := by
  induction h with
  | genesis => rfl
  | append c ts p c2 b hr happ ih =>
    obtain ⟨tip, hl, hb, hc2⟩ := appendBlock_eq_some c ts p c2 b happ
    subst hb
    subst hc2
    exact verify_append_mk c ts p tip hl ih

theorem reachable_hash_ok (c : Chain) (h : Reachable c) :
    ∀ b ∈ c, b.hash = calculate_hash b := by
  induction h with
  | genesis =>
    intro b hb
    simp only [genesis, List.mem_singleton] at hb
    subst hb
    rfl
  | append c ts p c2 b2 hr happ ih =>
    obtain ⟨tip, hl, hb, hc2⟩ := appendBlock_eq_some c ts p c2 b2 happ
    subst hc2
    intro x hx
    rcases List.mem_append.mp hx with hx | hx
    · exact ih x hx
    · simp only [List.mem_singleton] at hx
      subst hx
      rw [hb]
      rfl

/-! ### Index-based characterization of verify -/

theorem verify_iff_get (ch : Chain) :
    verify ch = true ↔
      ∀ (i : Nat), 1 ≤ i → ∀ (h : i < ch.length),
        (ch.get ⟨i, h⟩).hash = calculate_hash (ch.get ⟨i, h⟩) ∧
        (ch.get ⟨i, h⟩).previous_hash =
          (ch.get ⟨i - 1, by omega⟩).hash := by
  rw [verify_iff_opt]
  constructor
  · intro hch i h1 h2
    have hi1 : i - 1 + 1 = i := by omega
    have hlt : i - 1 < ch.length := by omega
    have hcur : ch[i - 1 + 1]? = some (ch.get ⟨i, h2⟩) := by
      rw [hi1, List.getElem?_eq_getElem h2, List.get_eq_getElem]
    have hprev : ch[i - 1]? = some (ch.get ⟨i - 1, hlt⟩) := by
      rw [List.getElem?_eq_getElem hlt, List.get_eq_getElem]
    have := hch (i - 1) (ch.get ⟨i, h2⟩) (ch.get ⟨i - 1, hlt⟩) hcur hprev
    rw [checkBlock_eq_true_iff] at this
    exact this
  · intro h i cur prevb hcur hprevb
    have hlt : i + 1 < ch.length := by
      rcases List.getElem?_eq_some.mp hcur with ⟨hh, _⟩
      exact hh
    have hlt0 : i < ch.length := by omega
    have hcur2 : cur = ch.get ⟨i + 1, hlt⟩ := by
      rw [List.getElem?_eq_getElem hlt] at hcur
      rw [List.get_eq_getElem]
      exact (Option.some.inj hcur).symm
    have hprev2 : prevb = ch.get ⟨i, hlt0⟩ := by
      rw [List.getElem?_eq_getElem hlt0] at hprevb
      rw [List.get_eq_getElem]
      exact (Option.some.inj hprevb).symm
    have hmain := h (i + 1) (by omega) hlt
    rw [checkBlock_eq_true_iff]
    subst hcur2
    subst hprev2
    simpa using hmain

/-! ### Claims -/

/-- C1: for every chain obtained from the genesis chain by any finite
sequence of append operations, `verify` returns true and every non-genesis
block at position `i` satisfies `chain[i].previous_hash = chain[i-1].hash`. -/
theorem claim_c1_linkage_and_verify (c : Chain) (hr : Reachable c) :
    verify c = true ∧
      ∀ (i : Nat), 1 ≤ i → ∀ (h : i < c.length),
        (c.get ⟨i, h⟩).previous_hash = (c.get ⟨i - 1, by omega⟩).hash := by
  have hv := reachable_verify c hr
  exact ⟨hv, fun i h1 h2 => ((verify_iff_get c).mp hv i h1 h2).2⟩

/-- Witness for C1 on the concrete chain obtained by one append to the
genesis chain. -/
theorem claim_c1_witness :
    verify (genesis () ++ [mkBlock 1 "t1" [("k", "v")] genesisBlock.hash])
        = true ∧
      ∀ (i : Nat), 1 ≤ i →
        ∀ (h : i < (genesis () ++
            [mkBlock 1 "t1" [("k", "v")] genesisBlock.hash]).length),
        ((genesis () ++
            [mkBlock 1 "t1" [("k", "v")] genesisBlock.hash]).get
          ⟨i, h⟩).previous_hash =
        ((genesis () ++
            [mkBlock 1 "t1" [("k", "v")] genesisBlock.hash]).get
          ⟨i - 1, by omega⟩).hash :=
  claim_c1_linkage_and_verify
    (genesis () ++ [mkBlock 1 "t1" [("k", "v")] genesisBlock.hash])
    (Reachable.append (genesis ()) "t1" [("k", "v")]
      (genesis () ++ [mkBlock 1 "t1" [("k", "v")] genesisBlock.hash])
      (mkBlock 1 "t1" [("k", "v")] genesisBlock.hash)
      Reachable.genesis rfl)

/-- C2: in every chain reachable by the chain operations, every block's
stored `hash` equals the digest recomputed from the block's other four
stored fields. -/
theorem claim_c2_content_addressing (c : Chain) (hr : Reachable c) :
    ∀ (i : Nat) (h : i < c.length),
      (c.get ⟨i, h⟩).hash = calculate_hash (c.get ⟨i, h⟩) :=
  fun i h => reachable_hash_ok c hr _ (List.get_mem c i h)

/-- Witness for C2 at position 0 of the genesis chain. -/
theorem claim_c2_witness :
    ((genesis ()).get ⟨0, by decide⟩).hash =
      calculate_hash ((genesis ()).get ⟨0, by decide⟩) :=
  claim_c2_content_addressing (genesis ()) Reachable.genesis 0 (by decide)

/-- C3: a successful `append` builds the new block from the prior length,
the supplied timestamp and payload, and the prior tip's hash; it pushes
exactly that block (growing the length by one) and returns it. -/
theorem claim_c3_append_spec (c : Chain) (ts : String) (p : Payload)
    (c2 : Chain) (b : Block) (h : appendBlock c ts p = some (c2, b)) :
    b.index = c.length ∧ b.timestamp = ts ∧ b.payload = p ∧
      (∃ tip, latest c = some tip ∧ b.previous_hash = tip.hash) ∧
      c2 = c ++ [b] ∧ c2.length = c.length + 1 := by
  obtain ⟨tip, hl, hb, hc2⟩ := appendBlock_eq_some c ts p c2 b h
  subst hb
  subst hc2
  exact ⟨rfl, rfl, rfl, ⟨tip, hl, rfl⟩, rfl, by simp⟩

/-- Witness for C3: one append to the genesis chain. -/
theorem claim_c3_witness :
    (mkBlock 1 "t1" [("a", "b")] genesisBlock.hash).index =
        (genesis ()).length ∧
      (mkBlock 1 "t1" [("a", "b")] genesisBlock.hash).timestamp = "t1" ∧
      (mkBlock 1 "t1" [("a", "b")] genesisBlock.hash).payload =
        [("a", "b")] ∧
      (∃ tip, latest (genesis ()) = some tip ∧
        (mkBlock 1 "t1" [("a", "b")] genesisBlock.hash).previous_hash =
          tip.hash) ∧
      genesis () ++ [mkBlock 1 "t1" [("a", "b")] genesisBlock.hash] =
        genesis () ++ [mkBlock 1 "t1" [("a", "b")] genesisBlock.hash] ∧
      (genesis () ++
        [mkBlock 1 "t1" [("a", "b")] genesisBlock.hash]).length =
        (genesis ()).length + 1 :=
  claim_c3_append_spec (genesis ()) "t1" [("a", "b")]
    (genesis () ++ [mkBlock 1 "t1" [("a", "b")] genesisBlock.hash])
    (mkBlock 1 "t1" [("a", "b")] genesisBlock.hash) rfl

/-- C4: `verify` returns true iff every block from index 1 to the end has a
stored hash equal to the digest recomputed from its own fields and a
`previous_hash` equal to the stored hash of the preceding block. -/
theorem claim_c4_verify_characterization (ch : Chain) :
    verify ch = true ↔
      ∀ (i : Nat), 1 ≤ i → ∀ (h : i < ch.length),
        (ch.get ⟨i, h⟩).hash = calculate_hash (ch.get ⟨i, h⟩) ∧
        (ch.get ⟨i, h⟩).previous_hash =
          (ch.get ⟨i - 1, by omega⟩).hash :=
  verify_iff_get ch

/-- Witness for C4: both directions exercised on the genesis chain. -/
theorem claim_c4_witness : verify (genesis ()) = true := by
  apply (claim_c4_verify_characterization (genesis ())).mpr
  intro i h1 h2
  simp only [genesis, List.length_singleton] at h2
  exact absurd h2 (by omega)

/-! ### Tamper and reorder detection -/

theorem block_eq_of_hash_eq (b1 b2 : Block)
    (hc : calculate_hash b1 = calculate_hash b2) (hh : b1.hash = b2.hash) :
    b1 = b2 := by
  cases b1 with
  | mk i1 t1 p1 ph1 h1 =>
    cases b2 with
    | mk i2 t2 p2 ph2 h2 =>
      simp only [calculate_hash, HashV.digest.injEq] at hc
      simp only at hh
      obtain ⟨e1, e2, e3, e4⟩ := hc
      subst e1
      subst e2
      subst e3
      subst e4
      subst hh
      rfl

theorem tamper_first_violation (c : Chain) (i : Nat) (h : i < c.length)
    (b2 : Block) (hv : verify c = true) (h1 : 1 ≤ i)
    (hh : b2.hash = (c.get ⟨i, h⟩).hash) (hne : b2 ≠ c.get ⟨i, h⟩) :
    firstViolation (c.set i b2) = some i := by
  cases c with
  | nil => simp at h
  | cons g rest =>
    obtain ⟨j, rfl⟩ : ∃ j, i = j + 1 := ⟨i - 1, by omega⟩
    have hj : j < rest.length := by
      simp only [List.length_cons] at h
      omega
    have hold : (g :: rest).get ⟨j + 1, h⟩ = rest[j] := by
      rw [List.get_cons_succ, List.get_eq_getElem]
    rw [hold] at hh hne
    have hrest : rest.take j ++ rest[j] :: rest.drop (j + 1) = rest := by
      rw [List.getElem_cons_drop, List.take_append_drop]
    have hlen : (rest.take j).length = j := List.length_take_of_le (by omega)
    have hv2 : firstViolationFrom g rest 1 = none := by
      simpa [verify, firstViolation, Option.isNone_iff_eq_none] using hv
    rw [← hrest, fvFrom_append_eq_none_iff, hlen] at hv2
    obtain ⟨hA, hB⟩ := hv2
    have hchk : checkBlock (lastD g (rest.take j)) rest[j] = true := by
      cases hcb : checkBlock (lastD g (rest.take j)) rest[j] with
      | true => rfl
      | false => simp [firstViolationFrom, hcb] at hB
    have hold_hash : rest[j].hash = calculate_hash rest[j] :=
      ((checkBlock_eq_true_iff _ _).mp hchk).1
    have hchk2 : checkBlock (lastD g (rest.take j)) b2 = false := by
      cases hcb : checkBlock (lastD g (rest.take j)) b2 with
      | false => rfl
      | true =>
        exfalso
        apply hne
        have hb2h : b2.hash = calculate_hash b2 :=
          ((checkBlock_eq_true_iff _ _).mp hcb).1
        exact block_eq_of_hash_eq b2 rest[j]
          (by rw [← hb2h, hh, hold_hash]) hh
    have hset : (g :: rest).set (j + 1) b2 =
        g :: (rest.take j ++ b2 :: rest.drop (j + 1)) := by
      rw [List.set_cons_succ, List.set_eq_take_cons_drop b2 hj]
    rw [hset]
    simp only [firstViolation]
    rw [fvFrom_append_of_none g _ _ 1 hA, hlen]
    simp only [firstViolationFrom, hchk2, if_false, Bool.false_eq_true]
    congr 1
    omega


theorem swap_breaks_verify (ch : Chain) (i : Nat) (h : i + 1 < ch.length)
    (hv : verify ch = true) :
    verify ((ch.set i (ch.get ⟨i + 1, h⟩)).set (i + 1)
      (ch.get ⟨i, by omega⟩)) = false := by
  by_contra hcon
  rw [Bool.not_eq_false] at hcon
  have hi0 : i < ch.length := by omega
  simp only [List.get_eq_getElem] at hcon
  have H := (verify_iff_opt ch).mp hv
  have H2 := (verify_iff_opt _).mp hcon
  have q_i : ((ch.set i ch[i + 1]).set (i + 1) ch[i])[i]? =
      some ch[i + 1] := by
    rw [List.getElem?_set_ne (by omega : i + 1 ≠ i)]
    exact List.getElem?_set_self (by simpa using hi0)
  have q_i1 : ((ch.set i ch[i + 1]).set (i + 1) ch[i])[i + 1]? =
      some ch[i] :=
    List.getElem?_set_self (by simpa using h)
  have hB12 : checkBlock ch[i] ch[i + 1] = true :=
    H i ch[i + 1] ch[i] (List.getElem?_eq_getElem h)
      (List.getElem?_eq_getElem hi0)
  obtain ⟨hBh, hBp⟩ := (checkBlock_eq_true_iff _ _).mp hB12
  cases i with
  | zero =>
    have hA12 : checkBlock ch[1] ch[0] = true := H2 0 ch[0] ch[1] q_i1 q_i
    obtain ⟨hAh, hAp⟩ := (checkBlock_eq_true_iff _ _).mp hA12
    have key : HashV.digest ch[0].index ch[0].timestamp ch[0].payload
        (HashV.digest ch[1].index ch[1].timestamp ch[1].payload
          ch[0].hash) = ch[0].hash := by
      conv_rhs => rw [hAh]
      simp only [calculate_hash]
      rw [hAp, hBh]
      simp only [calculate_hash]
      rw [hBp]
    exact digest_ne_self2 _ _ _ _ _ _ _ key
  | succ j =>
    have hj : j < ch.length := by omega
    have q_pred : ((ch.set (j + 1) ch[j + 1 + 1]).set (j + 1 + 1)
        ch[j + 1])[j]? = ch[j]? := by
      rw [List.getElem?_set_ne (by omega : j + 1 + 1 ≠ j),
        List.getElem?_set_ne (by omega : j + 1 ≠ j)]
    have hlink2 : checkBlock ch[j] ch[j + 1 + 1] = true :=
      H2 j ch[j + 1 + 1] ch[j] q_i
        (by rw [q_pred]; exact List.getElem?_eq_getElem hj)
    obtain ⟨_, hBp2⟩ := (checkBlock_eq_true_iff _ _).mp hlink2
    have hlink1 : checkBlock ch[j] ch[j + 1] = true :=
      H j ch[j + 1] ch[j] (List.getElem?_eq_getElem hi0)
        (List.getElem?_eq_getElem hj)
    obtain ⟨hAh, hAp⟩ := (checkBlock_eq_true_iff _ _).mp hlink1
    have hAcj : ch[j + 1].hash = ch[j].hash := by rw [← hBp, hBp2]
    have key : HashV.digest ch[j + 1].index ch[j + 1].timestamp
        ch[j + 1].payload ch[j + 1].hash = ch[j + 1].hash := by
      conv_rhs => rw [hAh]
      simp only [calculate_hash]
      rw [hAp, ← hAcj]
    exact digest_ne_self _ _ _ _ key

/-- C5: on any chain accepted by `verify`, replacing a non-genesis block by a
different block with the same stored `hash` (i.e. mutating any field other
than `hash`) makes `verify` return false and makes the walk identify exactly
the mutated block's index; and swapping two adjacent blocks' positions
without recomputing hashes makes `verify` return false. -/
theorem claim_c5_tamper_and_reorder :
    (∀ (c : Chain) (i : Nat) (h : i < c.length) (b2 : Block),
        verify c = true → 1 ≤ i → b2.hash = (c.get ⟨i, h⟩).hash →
        b2 ≠ c.get ⟨i, h⟩ →
        verify (c.set i b2) = false ∧
          firstViolation (c.set i b2) = some i) ∧
    (∀ (c : Chain) (i : Nat) (h : i + 1 < c.length),
        verify c = true →
        verify ((c.set i (c.get ⟨i + 1, h⟩)).set (i + 1)
          (c.get ⟨i, by omega⟩)) = false) := by
  constructor
  · intro c i h b2 hv h1 hh hne
    have hfv := tamper_first_violation c i h b2 hv h1 hh hne
    exact ⟨by simp [verify, hfv], hfv⟩
  · exact swap_breaks_verify

/-- Witness for C5: a two-block chain, a timestamp mutation of block 1, and
the swap of the two blocks. -/
theorem claim_c5_witness :
    (verify ((genesis () ++
          [mkBlock 1 "t1" [("k", "v")] genesisBlock.hash]).set 1
        { index := 1, timestamp := "t2", payload := [("k", "v")],
          previous_hash := genesisBlock.hash,
          hash := (mkBlock 1 "t1" [("k", "v")] genesisBlock.hash).hash })
        = false ∧
      firstViolation ((genesis () ++
          [mkBlock 1 "t1" [("k", "v")] genesisBlock.hash]).set 1
        { index := 1, timestamp := "t2", payload := [("k", "v")],
          previous_hash := genesisBlock.hash,
          hash := (mkBlock 1 "t1" [("k", "v")] genesisBlock.hash).hash })
        = some 1) ∧
    verify (((genesis () ++
        [mkBlock 1 "t1" [("k", "v")] genesisBlock.hash]).set 0
        ((genesis () ++
          [mkBlock 1 "t1" [("k", "v")] genesisBlock.hash]).get
            ⟨1, by decide⟩)).set 1
        ((genesis () ++
          [mkBlock 1 "t1" [("k", "v")] genesisBlock.hash]).get
            ⟨0, by decide⟩)) = false := by
  constructor
  · exact claim_c5_tamper_and_reorder.1
      (genesis () ++ [mkBlock 1 "t1" [("k", "v")] genesisBlock.hash]) 1
      (by decide)
      { index := 1, timestamp := "t2", payload := [("k", "v")],
        previous_hash := genesisBlock.hash,
        hash := (mkBlock 1 "t1" [("k", "v")] genesisBlock.hash).hash }
      (by decide) (by decide) (by decide) (by decide)
  · exact claim_c5_tamper_and_reorder.2
      (genesis () ++ [mkBlock 1 "t1" [("k", "v")] genesisBlock.hash]) 0
      (by decide) (by decide)

/-- C6: `genesis()` constructs a chain of exactly one block with index 0 and
the fixed `previous_hash` marker, and genesis is deterministic: two
independent invocations produce identical blocks, so two independently
initialized chains are identical at genesis. -/
theorem claim_c6_genesis :
    (genesis ()).length = 1 ∧
      (genesis ()).get ⟨0, by decide⟩ = genesisBlock ∧
      genesisBlock.index = 0 ∧
      genesisBlock.previous_hash = HashV.marker ∧
      ∀ (u v : Unit), genesis u = genesis v :=
  ⟨rfl, rfl, rfl, rfl, fun _ _ => rfl⟩

/-- C7: when the wipe execution signals `DeviceUnavailable`,
`SanitizationFailed` or `ArtifactWriteError`, `start_wipe` appends no block
(the chain state is returned unchanged) and surfaces the error; a record can
enter the chain only on a success outcome. -/
theorem claim_c7_no_append_on_error (chain : Chain) (device : Option String)
    (ts : String) :
    (∀ (e : WipeError),
        (start_wipe chain device ts (.error e)).1 = chain ∧
        (start_wipe chain device ts (.error e)).2 = .error (.engine e)) ∧
    (∀ (o : Except WipeError Artifacts),
        (start_wipe chain device ts o).1 ≠ chain → ∃ a, o = .ok a) := by
  constructor
  · intro e
    exact ⟨rfl, rfl⟩
  · intro o hne
    cases o with
    | error e => exact absurd rfl hne
    | ok a => exact ⟨a, rfl⟩

/-- Witness for C7: an unavailable device leaves the genesis chain
untouched, and a chain change implies a success outcome. -/
theorem claim_c7_witness :
    ((start_wipe (genesis ()) none "t" (.error .DeviceUnavailable)).1 =
        genesis () ∧
      (start_wipe (genesis ()) none "t" (.error .DeviceUnavailable)).2 =
        .error (.engine .DeviceUnavailable)) ∧
    ∃ a, (.ok ⟨"log", "cert"⟩ : Except WipeError Artifacts) = .ok a := by
  constructor
  · exact (claim_c7_no_append_on_error (genesis ()) none "t").1
      .DeviceUnavailable
  · exact (claim_c7_no_append_on_error (genesis ()) none "t").2
      (.ok ⟨"log", "cert"⟩) (by decide)

/-- C8: `latest` fails exactly on a zero-length chain, returns the last
block otherwise, and on every reachable chain it succeeds (the error branch
is unreachable). -/
theorem claim_c8_latest_spec :
    (∀ (c : Chain), latest c = none ↔ c.length = 0) ∧
    (∀ (c : Chain) (b : Block), latest c = some b →
      ∃ init, c = init ++ [b]) ∧
    (∀ (c : Chain), Reachable c →
      0 < c.length ∧ ∃ b, latest c = some b) := by
  refine ⟨?_, ?_, ?_⟩
  · intro c
    simp [latest]
  · intro c b hb
    exact List.getLast?_eq_some_iff.mp hb
  · intro c hr
    refine ⟨reachable_length_pos c hr, ?_⟩
    cases hc : c with
    | nil =>
      have := reachable_length_pos c hr
      rw [hc] at this
      simp at this
    | cons g rest => exact ⟨lastD g rest, getLast?_eq_lastD g rest⟩

/-- Witness for C8 exercising all three parts on concrete chains. -/
theorem claim_c8_witness :
    (latest (genesis ()) = none ↔ (genesis ()).length = 0) ∧
      (∃ init, genesis () = init ++ [genesisBlock]) ∧
      (0 < (genesis ()).length ∧ ∃ b, latest (genesis ()) = some b) :=
  ⟨claim_c8_latest_spec.1 (genesis ()),
   claim_c8_latest_spec.2.1 (genesis ()) genesisBlock rfl,
   claim_c8_latest_spec.2.2 (genesis ()) Reachable.genesis⟩

/-- C9: a certificate context is produced only when the wipe completed
without error and the append went through; its displayed `blockchain_hash`
and `previous_hash` equal the appended block's `hash` and `previous_hash`
(never placeholders), and a verified chain stays verified after the
append. -/
theorem claim_c9_certificate (chain : Chain) (device : Option String)
    (ts : String) (o : Except WipeError Artifacts) (c2 : Chain)
    (ctx : Context) (h : start_wipe chain device ts o = (c2, .ok ctx)) :
    (∃ a, o = .ok a) ∧
    ∃ b tip, latest chain = some tip ∧ c2 = chain ++ [b] ∧
      ctx.blockchain_hash = b.hash ∧ ctx.previous_hash = b.previous_hash ∧
      (verify chain = true → verify c2 = true) := by
  cases o with
  | error e => simp [start_wipe] at h
  | ok a =>
    refine ⟨⟨a, rfl⟩, ?_⟩
    cases hl : latest chain with
    | none => simp [start_wipe, hl] at h
    | some tip =>
      simp only [start_wipe, hl, Prod.mk.injEq, Except.ok.injEq] at h
      obtain ⟨hc2, hctx⟩ := h
      refine ⟨mkBlock chain.length ts
        [("log_id", "log_" ++ removeDashes (device.getD "DEVICE123")),
         ("device_id", device.getD "DEVICE123"),
         ("wiping_method", "DoD 5220.22-M"),
         ("status", "Wipe Successful"),
         ("timestamp", ts)] tip.hash, tip, rfl, hc2.symm, ?_, ?_, ?_⟩
      · rw [← hctx]
      · rw [← hctx]
      · intro hv
        rw [← hc2]
        exact verify_append_mk chain ts _ tip hl hv

/-- Witness for C9: a successful wipe on the genesis chain with the default
device. -/
theorem claim_c9_witness :
    (∃ a, (.ok ⟨"log", "cert"⟩ : Except WipeError Artifacts) = .ok a) ∧
    ∃ b tip, latest (genesis ()) = some tip ∧
      (start_wipe (genesis ()) none "t" (.ok ⟨"log", "cert"⟩)).1 =
        genesis () ++ [b] ∧
      ((start_wipe (genesis ()) none "t"
          (.ok ⟨"log", "cert"⟩)).2.toOption.getD
        { device_id := "", device_name := "", timestamp := "",
          wipe_status := "", method := "", blockchain_hash := .marker,
          previous_hash := .marker, log_file := "",
          certificate_file := "" }).blockchain_hash = b.hash ∧
      ((start_wipe (genesis ()) none "t"
          (.ok ⟨"log", "cert"⟩)).2.toOption.getD
        { device_id := "", device_name := "", timestamp := "",
          wipe_status := "", method := "", blockchain_hash := .marker,
          previous_hash := .marker, log_file := "",
          certificate_file := "" }).previous_hash = b.previous_hash ∧
      (verify (genesis ()) = true →
        verify ((start_wipe (genesis ()) none "t"
          (.ok ⟨"log", "cert"⟩)).1) = true) := by
  have h := claim_c9_certificate (genesis ()) none "t"
    (.ok ⟨"log", "cert"⟩)
    (start_wipe (genesis ()) none "t" (.ok ⟨"log", "cert"⟩)).1
    ((start_wipe (genesis ()) none "t"
        (.ok ⟨"log", "cert"⟩)).2.toOption.getD
      { device_id := "", device_name := "", timestamp := "",
        wipe_status := "", method := "", blockchain_hash := .marker,
        previous_hash := .marker, log_file := "",
        certificate_file := "" }) rfl
  exact h

/-- C10: on a successful wipe the appended block's payload is exactly the
five-entry map of `views.py` lines 23-29: `log_id` is `"log_"` followed by
the device id with every dash removed, `device_id` is the device parameter
(defaulting to `"DEVICE123"` when absent), the fixed method and status
strings, and a timestamp equal to the appended block's own timestamp. -/
theorem claim_c10_payload (chain : Chain) (device : Option String)
    (ts : String) (a : Artifacts) (c2 : Chain)
    (r : Except StartWipeError Context) (tip : Block)
    (h : start_wipe chain device ts (.ok a) = (c2, r))
    (hl : latest chain = some tip) :
    ∃ b, c2 = chain ++ [b] ∧
      b.payload =
        [("log_id", "log_" ++ removeDashes (device.getD "DEVICE123")),
         ("device_id", device.getD "DEVICE123"),
         ("wiping_method", "DoD 5220.22-M"),
         ("status", "Wipe Successful"),
         ("timestamp", b.timestamp)] ∧
      b.timestamp = ts := by
  simp only [start_wipe, hl, Prod.mk.injEq] at h
  obtain ⟨hc2, _⟩ := h
  exact ⟨mkBlock chain.length ts
    [("log_id", "log_" ++ removeDashes (device.getD "DEVICE123")),
     ("device_id", device.getD "DEVICE123"),
     ("wiping_method", "DoD 5220.22-M"),
     ("status", "Wipe Successful"),
     ("timestamp", ts)] tip.hash, hc2.symm, rfl, rfl⟩

/-- Witness for C10: a dashed device id `"AB-C1"` on the genesis chain; the
log id in the payload is `"log_ABC1"`. -/
theorem claim_c10_witness :
    ∃ b, (start_wipe (genesis ()) (some "AB-C1") "t"
        (.ok ⟨"log", "cert"⟩)).1 = genesis () ++ [b] ∧
      b.payload =
        [("log_id", "log_" ++ removeDashes ((some "AB-C1").getD
            "DEVICE123")),
         ("device_id", (some "AB-C1").getD "DEVICE123"),
         ("wiping_method", "DoD 5220.22-M"),
         ("status", "Wipe Successful"),
         ("timestamp", b.timestamp)] ∧
      b.timestamp = "t" :=
  claim_c10_payload (genesis ()) (some "AB-C1") "t" ⟨"log", "cert"⟩
    (start_wipe (genesis ()) (some "AB-C1") "t" (.ok ⟨"log", "cert"⟩)).1
    (start_wipe (genesis ()) (some "AB-C1") "t" (.ok ⟨"log", "cert"⟩)).2
    genesisBlock rfl rfl
